import Mathlib

/-!
# Verification of the csv-visualizer core (src/main.py)

Shallow embedding of the data-and-rendering engine of `src/main.py`:

* `generate_palette`, `_calc_unique_values_up_to_30` (domain analyzer),
* segmentation (`MAX_ROWS_BEFORE_CHUNK`, `CHUNK_SIZE`, `load_csv_file`,
  `_get_current_df_slice`),
* `_draw_category_background` (background span encoder),
* `_zoom_limits` (cursor-centered zoom),
* `_on_select` / `on_range_selected` (selection rounding, ordering, clamping),
* `apply_edit_to_selection` and `load_csv_file` state transitions.

Conventions of the embedding:

* Cell values are modelled by their stringified form (`astype(str)` /
  `str(...)` in the source): every comparison in the analyzed code goes
  through the string representation, so columns are `List String`.
* A pandas `DataFrame` is an association list of named columns.
* Python floats are modelled as rationals (`ℚ`), real-number semantics.
* The pseudo-random sample drawn by `series.sample(k, random_state=0)` is an
  external library effect; it is passed in as an explicit argument (every
  theorem about it only assumes that the sampled values are values of the
  series, which pandas sampling-without-replacement guarantees).
* GUI side effects (matplotlib `axvspan`, message boxes, re-rendering) are
  reified: spans become a returned list, errors become an `Option` error
  code, and the re-render performed by `redraw_plot` is an arbitrary
  function on the application state whose limit changes are then overwritten
  by the capture/restore pair in `apply_edit_to_selection`.
-/

/-! ## Segmentation (`MainWindow.MAX_ROWS_BEFORE_CHUNK`, `CHUNK_SIZE`,
`load_csv_file` lines 585-591, `_get_current_df_slice` lines 644-651) -/

def MAX_ROWS_BEFORE_CHUNK : Nat := 90000

def CHUNK_SIZE : Nat := 45000

/-- `total_chunks` as computed in `load_csv_file`:
`math.ceil(n_rows / CHUNK_SIZE)` if `n_rows > MAX_ROWS_BEFORE_CHUNK`, else 1. -/
def totalChunksOf (n : Nat) : Nat :=
  if n > MAX_ROWS_BEFORE_CHUNK then (n + CHUNK_SIZE - 1) / CHUNK_SIZE else 1

/-- The row range `[start, end)` of segment `i`, from `_get_current_df_slice`:
the whole table when `total_chunks == 1`, otherwise
`[i * CHUNK_SIZE, min ((i+1) * CHUNK_SIZE) n)`. -/
def sliceRange (n i : Nat) : Nat × Nat :=
  if totalChunksOf n = 1 then (0, n)
  else (i * CHUNK_SIZE, min ((i + 1) * CHUNK_SIZE) n)

/-! ## Cursor-centered zoom (`PlotCanvas._zoom_limits`, lines 136-141) -/

/-- `_zoom_limits(lims, center, scale)`. -/
def zoomLimits (lims : ℚ × ℚ) (center scale : ℚ) : ℚ × ℚ :=
  (center - (center - lims.1) / scale, center + (lims.2 - center) / scale)

/-! ## Theorems for claim C2 -/

/-- C2 counterexample: the claim describes every segment as
`[i*45000, min((i+1)*45000, N))`, but for `N = 60000` the code is in the
unsegmented regime (`total_chunks = 1`) and the single slice is the whole
table `[0, 60000)`, not `[0, min(45000, 60000)) = [0, 45000)`; with the
claim's formula row 50000 would be covered by no segment. -/
theorem sliceRange_formula_counterexample :
    totalChunksOf 60000 = 1 ∧
    sliceRange 60000 0 = (0, 60000) ∧
    (0, 60000) ≠ (0 * CHUNK_SIZE, min ((0 + 1) * CHUNK_SIZE) 60000) ∧
    (∀ i, i < totalChunksOf 60000 →
      ¬ (i * CHUNK_SIZE ≤ 50000 ∧ 50000 < min ((i + 1) * CHUNK_SIZE) 60000)) := by
  refine ⟨by decide, by decide, by decide, ?_⟩
  intro i hi
  have h0 : totalChunksOf 60000 = 1 := by decide
  rw [h0] at hi
  interval_cases i
  decide

/-- C2 (amended): for every row count `n`, the number of segments is 1 when
`n ≤ 90000` and `⌈n / 45000⌉` otherwise; the single segment is `[0, n)` in
the unsegmented regime, and segment `i` is `[i*45000, min((i+1)*45000, n))`
otherwise; the segments partition `[0, n)` exactly, with no gaps and no
overlaps. -/
theorem segmentation_partition (n : Nat) :
    (n ≤ MAX_ROWS_BEFORE_CHUNK → totalChunksOf n = 1) ∧
    (MAX_ROWS_BEFORE_CHUNK < n →
      totalChunksOf n = (n + CHUNK_SIZE - 1) / CHUNK_SIZE) ∧
    (totalChunksOf n = 1 → sliceRange n 0 = (0, n)) ∧
    (totalChunksOf n ≠ 1 →
      ∀ i, sliceRange n i = (i * CHUNK_SIZE, min ((i + 1) * CHUNK_SIZE) n)) ∧
    (∀ k, k < n ↔ ∃ i, i < totalChunksOf n ∧
      (sliceRange n i).1 ≤ k ∧ k < (sliceRange n i).2) ∧
    (∀ i j k, i < totalChunksOf n → j < totalChunksOf n →
      (sliceRange n i).1 ≤ k → k < (sliceRange n i).2 →
      (sliceRange n j).1 ≤ k → k < (sliceRange n j).2 → i = j) := by
  by_cases hn : n ≤ MAX_ROWS_BEFORE_CHUNK
  · have h1 : totalChunksOf n = 1 := by
      simp [totalChunksOf, Nat.not_lt.mpr hn]
    refine ⟨fun _ => h1, fun h => absurd h (Nat.not_lt.mpr hn), ?_, ?_, ?_, ?_⟩
    · intro _; simp [sliceRange, h1]
    · intro h; exact absurd h1 h
    · intro k
      constructor
      · intro hk
        exact ⟨0, by omega, by simp [sliceRange, h1], by simp [sliceRange, h1]; exact hk⟩
      · rintro ⟨i, hi, _, hk2⟩
        simpa [sliceRange, h1] using hk2
    · intro i j k hi hj _ _ _ _
      omega
  · push_neg at hn
    have hC : 0 < CHUNK_SIZE := by decide
    have htc : totalChunksOf n = (n + CHUNK_SIZE - 1) / CHUNK_SIZE := by
      simp [totalChunksOf, hn]
    have htc2 : 2 ≤ totalChunksOf n := by
      rw [htc]
      have hd := Nat.div_add_mod (n + CHUNK_SIZE - 1) CHUNK_SIZE
      have hm := Nat.mod_lt (n + CHUNK_SIZE - 1) hC
      unfold MAX_ROWS_BEFORE_CHUNK at hn
      unfold CHUNK_SIZE at *
      omega
    have hne : totalChunksOf n ≠ 1 := by omega
    have hsl : ∀ i, sliceRange n i =
        (i * CHUNK_SIZE, min ((i + 1) * CHUNK_SIZE) n) := by
      intro i; simp [sliceRange, hne]
    refine ⟨fun h => absurd hn (Nat.not_lt.mpr h), fun _ => htc, ?_, fun _ => hsl,
      ?_, ?_⟩
    · intro h; exact absurd h hne
    · intro k
      constructor
      · intro hk
        refine ⟨k / CHUNK_SIZE, ?_, ?_, ?_⟩
        · rw [htc]
          have hd1 := Nat.div_add_mod k CHUNK_SIZE
          have hd2 := Nat.div_add_mod (n + CHUNK_SIZE - 1) CHUNK_SIZE
          have hm1 := Nat.mod_lt k hC
          have hm2 := Nat.mod_lt (n + CHUNK_SIZE - 1) hC
          unfold CHUNK_SIZE at *
          omega
        · rw [hsl]
          exact Nat.div_mul_le_self k CHUNK_SIZE
        · rw [hsl]
          have hd1 := Nat.div_add_mod k CHUNK_SIZE
          have hm1 := Nat.mod_lt k hC
          simp only [lt_min_iff]
          constructor
          · unfold CHUNK_SIZE at *; omega
          · exact hk
      · rintro ⟨i, hi, _, hk2⟩
        rw [hsl] at hk2
        exact lt_of_lt_of_le hk2 (min_le_right _ _)
    · intro i j k hi hj h1 h2 h3 h4
      rw [hsl] at h1 h2 h3 h4
      simp only [lt_min_iff] at h2 h4
      have h2' := h2.1
      have h4' := h4.1
      unfold CHUNK_SIZE at *
      omega

/-! ## Theorems for claim C4 -/

/-- C4: for every pair of limits, focal coordinate `c` and scale
`s ∈ {1.1, 1/1.1}`, `_zoom_limits` returns
`(c - (c - left)/s, c + (right - c)/s)`, the focal point's relative position
`(c - left)/(right - left)` is preserved exactly, and limits `(10, 20)` with
focal point `15` and scale `1.1` yield `(115/11, 215/11) ≈ (10.4545, 19.5455)`. -/
theorem zoom_limits_spec (left right center s : ℚ)
    (hs : s = 11 / 10 ∨ s = 10 / 11) :
    zoomLimits (left, right) center s =
      (center - (center - left) / s, center + (right - center) / s) ∧
    (center - (zoomLimits (left, right) center s).1) /
        ((zoomLimits (left, right) center s).2 -
          (zoomLimits (left, right) center s).1) =
      (center - left) / (right - left) ∧
    zoomLimits (10, 20) 15 (11 / 10) = (115 / 11, 215 / 11) ∧
    ((104545 : ℚ) / 10000 < 115 / 11 ∧ (115 : ℚ) / 11 < 104546 / 10000 ∧
      (195454 : ℚ) / 10000 < 215 / 11 ∧ (215 : ℚ) / 11 < 195455 / 10000) := by
  have hs0 : s ≠ 0 := by rcases hs with h | h <;> rw [h] <;> norm_num
  refine ⟨rfl, ?_, by norm_num [zoomLimits], by norm_num⟩
  have h1 : center - (zoomLimits (left, right) center s).1 =
      (center - left) * s⁻¹ := by
    simp only [zoomLimits]; ring
  have h2 : (zoomLimits (left, right) center s).2 -
      (zoomLimits (left, right) center s).1 = (right - left) * s⁻¹ := by
    simp only [zoomLimits]; ring
  rw [h1, h2, mul_div_mul_right _ _ (inv_ne_zero hs0)]

/-- Witness for `zoom_limits_spec` at limits `(10, 20)`, focal point `15`,
scale `11/10`. -/
theorem zoom_limits_spec_witness :
    ((11 : ℚ) / 10 = 11 / 10 ∨ (11 : ℚ) / 10 = 10 / 11) ∧
    (zoomLimits (10, 20) 15 (11 / 10) =
      (15 - (15 - 10) / (11 / 10), 15 + (20 - 15) / (11 / 10)) ∧
    (15 - (zoomLimits ((10 : ℚ), (20 : ℚ)) 15 (11 / 10)).1) /
        ((zoomLimits ((10 : ℚ), (20 : ℚ)) 15 (11 / 10)).2 -
          (zoomLimits ((10 : ℚ), (20 : ℚ)) 15 (11 / 10)).1) =
      ((15 : ℚ) - 10) / (20 - 10) ∧
    zoomLimits (10, 20) 15 (11 / 10) = (115 / 11, 215 / 11) ∧
    ((104545 : ℚ) / 10000 < 115 / 11 ∧ (115 : ℚ) / 11 < 104546 / 10000 ∧
      (195454 : ℚ) / 10000 < 215 / 11 ∧ (215 : ℚ) / 11 < 195455 / 10000)) :=
  ⟨Or.inl rfl, zoom_limits_spec 10 20 15 (11 / 10) (Or.inl rfl)⟩

/-! ## Range selection (`PlotCanvas._on_select` lines 184-188,
`MainWindow.on_range_selected` lines 807-828) -/

/-- Python 3 `round` on a real value: round half to even (banker's
rounding), as applied by `_on_select` via `int(round(x))`. Computed on the
raw rational representation: with `f = ⌊q⌋ = fdiv num den` and fractional
part `q - f = (num - f * den) / den`, the comparisons of `q - f` against
`1/2` become comparisons of `r2 = 2 * (num - f * den)` against `den`. -/
def pyRound (q : ℚ) : ℤ :=
  let f := Int.fdiv q.num q.den
  let r2 := 2 * (q.num - f * q.den)
  if r2 < q.den then f
  else if (q.den : ℤ) < r2 then f + 1
  else if f % 2 = 0 then f else f + 1

/-- The ordering and clamping performed on the rounded indices by
`on_range_selected` (before the segment offset is added): swap if
`start > end`, raise `start` to 0 if negative, lower `end` to
`sliceLen - 1` if `end ≥ sliceLen`. -/
def onRangeSelectedLocal (startIdx endIdx sliceLen : ℤ) : ℤ × ℤ :=
  let p := if startIdx > endIdx then (endIdx, startIdx) else (startIdx, endIdx)
  let s := if p.1 < 0 then 0 else p.1
  let e := if p.2 ≥ sliceLen then sliceLen - 1 else p.2
  (s, e)

/-- Composition of `_on_select` (rounding each drag coordinate) with the
ordering and clamping of `on_range_selected`. -/
def selectionFromDrag (xmin xmax : ℚ) (sliceLen : ℤ) : ℤ × ℤ :=
  onRangeSelectedLocal (pyRound xmin) (pyRound xmax) sliceLen

/-- C5 counterexample: for segment length 100 and a drag entirely left of
the data, coordinates `(-10, -5)`, the code produces the selection
`(0, -5)`: `start > end` and `end < 0`, violating
`0 ≤ start ≤ end < segmentLength`. -/
theorem selection_clamp_counterexample :
    selectionFromDrag (-10) (-5) 100 = (0, -5) ∧
    ¬ ((0 : ℤ) ≤ (selectionFromDrag (-10) (-5) 100).1 ∧
       (selectionFromDrag (-10) (-5) 100).1 ≤ (selectionFromDrag (-10) (-5) 100).2 ∧
       (selectionFromDrag (-10) (-5) 100).2 < 100) := by
  constructor
  · decide
  · intro h
    rw [show selectionFromDrag (-10) (-5) 100 = (0, -5) by decide] at h
    exact absurd (le_trans h.1 h.2.1) (by decide)

/-- C5 (amended): for every pair of drag x-coordinates and segment length
`L > 0`, provided the rounded, ordered drag interval intersects `[0, L)`
(its smaller endpoint is `< L` and its larger endpoint is `≥ 0`), the
produced selection satisfies `0 ≤ start ≤ end < L`; in particular, segment
length 100 with drag coordinates `(-5.3, 120.7)` yields `(0, 99)`. -/
theorem selection_clamp_invariant (xmin xmax : ℚ) (L : ℤ) (hL : 0 < L)
    (hlo : min (pyRound xmin) (pyRound xmax) < L)
    (hhi : 0 ≤ max (pyRound xmin) (pyRound xmax)) :
    (0 ≤ (selectionFromDrag xmin xmax L).1 ∧
      (selectionFromDrag xmin xmax L).1 ≤ (selectionFromDrag xmin xmax L).2 ∧
      (selectionFromDrag xmin xmax L).2 < L) ∧
    ((mkRat (-53) 10 : ℚ) = -53 / 10 ∧ (mkRat 1207 10 : ℚ) = 1207 / 10 ∧
      selectionFromDrag (mkRat (-53) 10) (mkRat 1207 10) 100 = (0, 99)) := by
  constructor
  · set a := pyRound xmin with ha
    set b := pyRound xmax with hb
    simp only [selectionFromDrag, onRangeSelectedLocal, ← ha, ← hb]
    rcases le_or_lt a b with hab | hab
    · rw [min_eq_left hab] at hlo
      rw [max_eq_right hab] at hhi
      split_ifs <;> constructor <;> try constructor
      all_goals omega
    · rw [min_eq_right hab.le] at hlo
      rw [max_eq_left hab.le] at hhi
      split_ifs <;> constructor <;> try constructor
      all_goals omega
  · refine ⟨by rw [Rat.mkRat_eq_div]; norm_num, by rw [Rat.mkRat_eq_div]; norm_num, by decide⟩

/-- Witness for `selection_clamp_invariant`: segment length 100, drag
coordinates `(-5.3, 120.7)`, which round to `(-5, 121)`. -/
theorem selection_clamp_invariant_witness :
    ((0 : ℤ) < 100 ∧
      min (pyRound (mkRat (-53) 10)) (pyRound (mkRat 1207 10)) < 100 ∧
      (0 : ℤ) ≤ max (pyRound (mkRat (-53) 10)) (pyRound (mkRat 1207 10))) ∧
    ((0 ≤ (selectionFromDrag (mkRat (-53) 10) (mkRat 1207 10) 100).1 ∧
      (selectionFromDrag (mkRat (-53) 10) (mkRat 1207 10) 100).1 ≤
        (selectionFromDrag (mkRat (-53) 10) (mkRat 1207 10) 100).2 ∧
      (selectionFromDrag (mkRat (-53) 10) (mkRat 1207 10) 100).2 < 100) ∧
    ((mkRat (-53) 10 : ℚ) = -53 / 10 ∧ (mkRat 1207 10 : ℚ) = 1207 / 10 ∧
      selectionFromDrag (mkRat (-53) 10) (mkRat 1207 10) 100 = (0, 99))) :=
  ⟨⟨by decide, by decide, by decide⟩,
    selection_clamp_invariant (mkRat (-53) 10) (mkRat 1207 10) 100 (by decide)
      (by decide) (by decide)⟩

/-! ## Domain analyzer (`MainWindow._calc_unique_values_up_to_30`,
lines 511-531) -/

/-- `pandas.Series.unique` on stringified values: the distinct values in
order of first appearance. `seen` accumulates the values already emitted. -/
def pdUniqueAux (seen : List String) : List String → List String
  | [] => []
  | x :: xs => if x ∈ seen then pdUniqueAux seen xs else x :: pdUniqueAux (x :: seen) xs

/-- The distinct values of a column, in order of first appearance
(`series.unique().tolist()`). -/
def pdUnique (l : List String) : List String :=
  pdUniqueAux [] l

/-- `_calc_unique_values_up_to_30(series)`. The column is given by its
stringified values. The pseudo-random draw of
`series.sample(sample_size, random_state=0)` is an external pandas effect
and is passed in as `sample`; it is only consulted when
`sample_size > head_n`, exactly as in the source. `none` models the
`Unbounded` classification (Python `None`), `some us` the `Enumerable`
classification. -/
def calcUniqueValuesUpTo30 (series sample : List String) : Option (List String) :=
  if series.length = 0 then some []
  else
    let headN := min 100 series.length
    let headVals := series.take headN
    let headUniques := pdUnique headVals
    if 30 < headUniques.length then none
    else
      let sampleSize := min 10000 series.length
      let sampleVals := if headN < sampleSize then sample else headVals
      let sampleUniques := pdUnique sampleVals
      if 30 < sampleUniques.length then none
      else
        let fullUniques := pdUnique series
        if 30 < fullUniques.length then none
        else some fullUniques

theorem mem_pdUniqueAux {a : String} :
    ∀ (l seen : List String), a ∈ pdUniqueAux seen l ↔ a ∈ l ∧ a ∉ seen := by
  intro l
  induction l with
  | nil => intro seen; simp [pdUniqueAux]
  | cons x xs ih =>
    intro seen
    by_cases hx : x ∈ seen
    · rw [pdUniqueAux, if_pos hx, ih]
      constructor
      · rintro ⟨h1, h2⟩
        exact ⟨List.mem_cons_of_mem _ h1, h2⟩
      · rintro ⟨h1, h2⟩
        rcases List.mem_cons.mp h1 with rfl | h1
        · exact absurd hx h2
        · exact ⟨h1, h2⟩
    · rw [pdUniqueAux, if_neg hx]
      rw [List.mem_cons, ih]
      constructor
      · rintro (rfl | ⟨h1, h2⟩)
        · exact ⟨List.mem_cons_self _ _, hx⟩
        · refine ⟨List.mem_cons_of_mem _ h1, fun hc => h2 (List.mem_cons_of_mem _ hc)⟩
      · rintro ⟨h1, h2⟩
        rcases List.mem_cons.mp h1 with rfl | h1
        · exact Or.inl rfl
        · by_cases hax : a = x
          · exact Or.inl hax
          · exact Or.inr ⟨h1, fun hc => by
              rcases List.mem_cons.mp hc with h | h
              · exact hax h
              · exact h2 h⟩

theorem mem_pdUnique {a : String} {l : List String} : a ∈ pdUnique l ↔ a ∈ l := by
  rw [pdUnique, mem_pdUniqueAux]
  simp

theorem nodup_pdUniqueAux : ∀ (l seen : List String), (pdUniqueAux seen l).Nodup := by
  intro l
  induction l with
  | nil => intro seen; simp [pdUniqueAux]
  | cons x xs ih =>
    intro seen
    by_cases hx : x ∈ seen
    · rw [pdUniqueAux, if_pos hx]; exact ih seen
    · rw [pdUniqueAux, if_neg hx]
      refine List.Nodup.cons ?_ (ih (x :: seen))
      intro hc
      exact ((mem_pdUniqueAux _ _).mp hc).2 (List.mem_cons_self _ _)

theorem nodup_pdUnique (l : List String) : (pdUnique l).Nodup :=
  nodup_pdUniqueAux l []

theorem sublist_pdUniqueAux : ∀ (l seen : List String), (pdUniqueAux seen l).Sublist l := by
  intro l
  induction l with
  | nil => intro seen; simp [pdUniqueAux]
  | cons x xs ih =>
    intro seen
    by_cases hx : x ∈ seen
    · rw [pdUniqueAux, if_pos hx]
      exact (ih seen).cons x
    · rw [pdUniqueAux, if_neg hx]
      exact (ih (x :: seen)).cons₂ x

theorem sublist_pdUnique (l : List String) : (pdUnique l).Sublist l :=
  sublist_pdUniqueAux l []

theorem toFinset_pdUnique (l : List String) : (pdUnique l).toFinset = l.toFinset := by
  ext a
  simp [List.mem_toFinset, mem_pdUnique]

theorem length_pdUnique (l : List String) : (pdUnique l).length = l.toFinset.card := by
  rw [← toFinset_pdUnique, List.toFinset_card_of_nodup (nodup_pdUnique l)]

theorem length_pdUnique_le_of_subset {l l' : List String}
    (h : ∀ x ∈ l', x ∈ l) : (pdUnique l').length ≤ l.toFinset.card := by
  rw [length_pdUnique]
  exact Finset.card_le_card fun a ha =>
    List.mem_toFinset.mpr (h a (List.mem_toFinset.mp ha))

/-! ## Theorems for claims C1 and C10 -/

/-- C1 counterexample: the distinct-count of column `["b", "a"]` is 2 ≤ 30,
but the analyzer returns `["b", "a"]` — the distinct set in order of first
appearance, which is not in sorted order (the sorted set is `["a", "b"]`).
(For a 2-row column the deterministic sample is never consulted.) -/
theorem domain_analyzer_sorted_counterexample :
    calcUniqueValuesUpTo30 ["b", "a"] ["b", "a"] = some ["b", "a"] ∧
    ¬ List.Sorted (· < ·) (["b", "a"] : List String) ∧
    (["b", "a"] : List String) ≠ ["a", "b"] := by
  refine ⟨by decide, ?_, by decide⟩
  intro h
  have hb := List.rel_of_sorted_cons h "a" (List.mem_singleton.mpr rfl)
  rw [String.lt_iff_toList_lt] at hb
  exact absurd hb (by decide)

/-- C1 (amended): for every column and every deterministic sample drawn from
it, if the column's true number of distinct stringified values is at most
30 the analyzer returns the `Enumerable` classification containing exactly
that distinct set — without duplicates, as an order-preserving subsequence
of the column (each value at its first appearance), not sorted — regardless
of the data ordering and of `N`; if the true distinct count exceeds 30 it
returns `Unbounded` (`none`). -/
theorem domain_analyzer_spec (series sample : List String)
    (hsub : ∀ x ∈ sample, x ∈ series) :
    (series.toFinset.card ≤ 30 →
      calcUniqueValuesUpTo30 series sample = some (pdUnique series) ∧
      (pdUnique series).Nodup ∧
      (pdUnique series).Sublist series ∧
      (∀ a, a ∈ pdUnique series ↔ a ∈ series)) ∧
    (30 < series.toFinset.card →
      calcUniqueValuesUpTo30 series sample = none) := by
  have hhead : (pdUnique (series.take (min 100 series.length))).length ≤
      series.toFinset.card :=
    length_pdUnique_le_of_subset fun x hx => (List.take_sublist _ _).mem hx
  have hsample : (pdUnique sample).length ≤ series.toFinset.card :=
    length_pdUnique_le_of_subset hsub
  have hfull : (pdUnique series).length = series.toFinset.card :=
    length_pdUnique series
  constructor
  · intro hcard
    refine ⟨?_, nodup_pdUnique series, sublist_pdUnique series,
      fun a => mem_pdUnique⟩
    rcases Nat.eq_zero_or_pos series.length with h0 | h0
    · rw [List.length_eq_zero] at h0
      subst h0
      rfl
    · rw [calcUniqueValuesUpTo30, if_neg (by omega)]
      simp only
      rw [if_neg (by omega)]
      split
      · rw [if_neg (by omega), if_neg (by omega)]
      · rw [if_neg (by omega), if_neg (by omega)]
  · intro hcard
    have h0 : series.length ≠ 0 := by
      intro h0
      rw [List.length_eq_zero] at h0
      subst h0
      simp at hcard
    rw [calcUniqueValuesUpTo30, if_neg h0]
    simp only
    split_ifs <;> first | rfl | (exfalso; omega)

/-- Witness for `domain_analyzer_spec`: the 4-row column
`["x", "y", "x", "y"]` with (trivial) sample equal to the head values. -/
theorem domain_analyzer_spec_witness :
    (∀ x ∈ (["x", "y", "x", "y"] : List String), x ∈ (["x", "y", "x", "y"] : List String)) ∧
    (((["x", "y", "x", "y"] : List String).toFinset.card ≤ 30 →
      calcUniqueValuesUpTo30 ["x", "y", "x", "y"] ["x", "y", "x", "y"] =
        some (pdUnique ["x", "y", "x", "y"]) ∧
      (pdUnique ["x", "y", "x", "y"]).Nodup ∧
      (pdUnique ["x", "y", "x", "y"]).Sublist ["x", "y", "x", "y"] ∧
      (∀ a, a ∈ pdUnique ["x", "y", "x", "y"] ↔ a ∈ (["x", "y", "x", "y"] : List String))) ∧
    (30 < (["x", "y", "x", "y"] : List String).toFinset.card →
      calcUniqueValuesUpTo30 ["x", "y", "x", "y"] ["x", "y", "x", "y"] = none)) :=
  ⟨fun _ hx => hx, domain_analyzer_spec ["x", "y", "x", "y"] ["x", "y", "x", "y"]
    (fun _ hx => hx)⟩

/-- C10: for an empty column (`N = 0`), the analyzer returns the
`Enumerable` classification with an empty value list (`return []`), never
`Unbounded`, whatever the sample. -/
theorem domain_analyzer_empty_column (sample : List String) :
    calcUniqueValuesUpTo30 [] sample = some [] :=
  rfl

/-! ## Range mutation (`apply_edit_to_selection`, line 846:
`self.df.loc[start_idx:end_idx, cat_col] = new_value`) -/

/-- One column under `df.loc[s:e, col] = v` with a default integer index:
cell `i` becomes `v` when `s ≤ i ≤ e` (pandas `.loc` slices are inclusive
at both ends), other cells are unchanged. `i` is the index of the head of
the remaining list. -/
def mutateColumnFrom (s e : Nat) (v : String) : List String → Nat → List String
  | [], _ => []
  | x :: xs, i => (if s ≤ i ∧ i ≤ e then v else x) :: mutateColumnFrom s e v xs (i + 1)

/-- `df.loc[s:e, col] = v` restricted to one column (indices from 0). -/
def mutateRange (vals : List String) (s e : Nat) (v : String) : List String :=
  mutateColumnFrom s e v vals 0

/-- A `DataFrame` as an association list of named columns.
`df.loc[s:e, catCol] = v` rewrites the cells of every column named
`catCol` and leaves all other columns untouched. -/
def applyEditDf (df : List (String × List String)) (catCol : String)
    (s e : Nat) (v : String) : List (String × List String) :=
  df.map fun p => if p.1 = catCol then (p.1, mutateRange p.2 s e v) else p

/-- `df[c]`: the first column named `c`, if any. -/
def lookupColumn (df : List (String × List String)) (c : String) :
    Option (List String) :=
  (df.find? fun p => p.1 = c).map Prod.snd

theorem length_mutateColumnFrom (s e : Nat) (v : String) :
    ∀ (xs : List String) (i : Nat), (mutateColumnFrom s e v xs i).length = xs.length := by
  intro xs
  induction xs with
  | nil => intro i; rfl
  | cons x xs ih => intro i; simp [mutateColumnFrom, ih]

theorem getD_mutateColumnFrom (s e : Nat) (v : String) :
    ∀ (xs : List String) (i k : Nat), k < xs.length →
      (mutateColumnFrom s e v xs i).getD k "" =
        if s ≤ i + k ∧ i + k ≤ e then v else xs.getD k "" := by
  intro xs
  induction xs with
  | nil => intro i k hk; simp at hk
  | cons x xs ih =>
    intro i k hk
    cases k with
    | zero => simp [mutateColumnFrom]
    | succ k =>
      rw [List.length_cons, Nat.succ_lt_succ_iff] at hk
      have := ih (i + 1) k hk
      simp only [mutateColumnFrom, List.getD_cons_succ]
      rw [this]
      have harith : i + 1 + k = i + (k + 1) := by omega
      rw [harith]

theorem getD_mutateRange (vals : List String) (s e : Nat) (v : String)
    (k : Nat) (hk : k < vals.length) :
    (mutateRange vals s e v).getD k "" =
      if s ≤ k ∧ k ≤ e then v else vals.getD k "" := by
  have := getD_mutateColumnFrom s e v vals 0 k hk
  simpa [mutateRange] using this

theorem lookupColumn_applyEditDf_self (df : List (String × List String))
    (c : String) (s e : Nat) (v : String) :
    lookupColumn (applyEditDf df c s e v) c =
      (lookupColumn df c).map fun vals => mutateRange vals s e v := by
  induction df with
  | nil => rfl
  | cons p df ih =>
    by_cases hp : p.1 = c
    · simp [lookupColumn, applyEditDf, List.find?, hp]
    · simp only [lookupColumn, applyEditDf, List.map_cons] at ih ⊢
      rw [if_neg hp]
      rw [List.find?_cons_of_neg _ (by simpa using hp),
        List.find?_cons_of_neg _ (by simpa using hp)]
      exact ih

theorem lookupColumn_applyEditDf_other (df : List (String × List String))
    (c c' : String) (s e : Nat) (v : String) (hcc : c' ≠ c) :
    lookupColumn (applyEditDf df c s e v) c' = lookupColumn df c' := by
  induction df with
  | nil => rfl
  | cons p df ih =>
    by_cases hp : p.1 = c
    · have hp' : p.1 ≠ c' := by rw [hp]; exact fun h => hcc h.symm
      simp only [lookupColumn, applyEditDf, List.map_cons, if_pos hp] at ih ⊢
      rw [List.find?_cons_of_neg _ (by simpa using hp'),
        List.find?_cons_of_neg _ (by simpa using hp')]
      exact ih
    · by_cases hp' : p.1 = c'
      · simp only [lookupColumn, applyEditDf, List.map_cons, if_neg hp]
        rw [List.find?_cons_of_pos _ (by simpa using hp'),
          List.find?_cons_of_pos _ (by simpa using hp')]
      · simp only [lookupColumn, applyEditDf, List.map_cons, if_neg hp] at ih ⊢
        rw [List.find?_cons_of_neg _ (by simpa using hp'),
          List.find?_cons_of_neg _ (by simpa using hp')]
        exact ih

/-- C6: for every global range and column, the edit writes `newValue` to
every row index in the inclusive range `[startGlobal, endGlobal]` of that
column and to no other cell (rows of the edited column outside the range
and all cells of other columns are unchanged); in particular, on the
10-row column `["a","a","b","b","b","a","c","c","a","a"]`, applying range
`(2, 4)` with value `"z"` yields
`["a","a","z","z","z","a","c","c","a","a"]`. -/
theorem edit_writes_inclusive_range (df : List (String × List String))
    (c : String) (s e : Nat) (v : String) :
    (∀ vals, lookupColumn df c = some vals →
      lookupColumn (applyEditDf df c s e v) c = some (mutateRange vals s e v) ∧
      (mutateRange vals s e v).length = vals.length ∧
      (∀ k, k < vals.length →
        (mutateRange vals s e v).getD k "" =
          if s ≤ k ∧ k ≤ e then v else vals.getD k "")) ∧
    (∀ c', c' ≠ c →
      lookupColumn (applyEditDf df c s e v) c' = lookupColumn df c') ∧
    mutateRange ["a", "a", "b", "b", "b", "a", "c", "c", "a", "a"] 2 4 "z" =
      ["a", "a", "z", "z", "z", "a", "c", "c", "a", "a"] := by
  refine ⟨?_, fun c' h => lookupColumn_applyEditDf_other df c c' s e v h, by decide⟩
  intro vals hvals
  refine ⟨?_, length_mutateColumnFrom s e v vals 0,
    fun k hk => getD_mutateRange vals s e v k hk⟩
  rw [lookupColumn_applyEditDf_self, hvals]
  rfl

/-! ## Background span encoder (`PlotCanvas._draw_category_background`,
lines 94-109) -/

/-- A background span `(startIndex, endIndex, categoryValue, color)` in the
segment's local index space: the source draws
`axvspan(start_idx - 0.5, i - 0.5)` for the run of rows `[start_idx, i)`. -/
abbrev BgSpan := Nat × Nat × String × String

/-- `current_val in color_map` / `color_map[current_val]` on the rendering
color map (a `dict` built in insertion order). -/
def lookupColor (colorMap : List (String × String)) (v : String) : Option String :=
  (colorMap.find? fun p => p.1 = v).map Prod.snd

/-- Close the run `[startIdx, i)` of value `currentVal`: emit its span
unless the value equals the no-background sentinel or is absent from the
color map (`if not (no_bg_value is not None and current_val == no_bg_value)`
followed by `if current_val in color_map`). -/
def emitSpan (noBg : Option String) (colorMap : List (String × String))
    (startIdx i : Nat) (currentVal : String) : List BgSpan :=
  if noBg = some currentVal then []
  else
    match lookupColor colorMap currentVal with
    | some color => [(startIdx, i, currentVal, color)]
    | none => []

/-- The scan loop of `_draw_category_background`, from loop index `i` with
the pending run `(currentVal, startIdx)`; `rest` is the remaining values
`cat_vals[i:]`. When the scan ends (`i == n`) the pending run is closed. -/
def bgRuns (noBg : Option String) (colorMap : List (String × String)) :
    List String → String → Nat → Nat → List BgSpan
  | [], currentVal, startIdx, i => emitSpan noBg colorMap startIdx i currentVal
  | v :: rest, currentVal, startIdx, i =>
    if v ≠ currentVal then
      emitSpan noBg colorMap startIdx i currentVal ++
        bgRuns noBg colorMap rest v i (i + 1)
    else
      bgRuns noBg colorMap rest currentVal startIdx (i + 1)

/-- `_draw_category_background(cat_vals, no_bg_value, color_map)`, with the
emitted `axvspan` calls reified as the returned list of spans. An empty
segment draws nothing. -/
def drawCategoryBackground (catVals : List String) (noBg : Option String)
    (colorMap : List (String × String)) : List BgSpan :=
  match catVals with
  | [] => []
  | v :: rest => bgRuns noBg colorMap rest v 0 1

/-- The spans in the list are sorted by start index and pairwise disjoint:
each span `[s, e)` satisfies `lo ≤ s < e` and the spans after it start at
or beyond its end. -/
def ChainedFrom (lo : Nat) : List BgSpan → Prop
  | [] => True
  | (s, e, _, _) :: rest => lo ≤ s ∧ s < e ∧ ChainedFrom e rest

theorem chainedFrom_mono {l : List BgSpan} :
    ∀ {lo lo' : Nat}, ChainedFrom lo l → lo' ≤ lo → ChainedFrom lo' l := by
  cases l with
  | nil => intro lo lo' _ _; trivial
  | cons sp rest =>
    intro lo lo' h hle
    obtain ⟨s, e, v, c⟩ := sp
    exact ⟨le_trans hle h.1, h.2.1, h.2.2⟩

theorem chainedFrom_start_le {l : List BgSpan} :
    ∀ {lo : Nat}, ChainedFrom lo l → ∀ sp ∈ l, lo ≤ sp.1 := by
  induction l with
  | nil => intro lo _ sp hsp; cases hsp
  | cons hd rest ih =>
    intro lo h sp hsp
    obtain ⟨s, e, v, c⟩ := hd
    obtain ⟨h1, h2, h3⟩ := h
    rcases List.mem_cons.mp hsp with rfl | hsp'
    · exact h1
    · exact le_trans (le_trans h1 h2.le) (ih h3 sp hsp')

theorem chainedFrom_pairwise {l : List BgSpan} :
    ∀ {lo : Nat}, ChainedFrom lo l →
      l.Pairwise fun a b => a.2.1 ≤ b.1 := by
  induction l with
  | nil => intro lo _; exact List.Pairwise.nil
  | cons hd rest ih =>
    intro lo h
    obtain ⟨s, e, v, c⟩ := hd
    obtain ⟨h1, h2, h3⟩ := h
    exact List.Pairwise.cons (fun b hb => chainedFrom_start_le h3 b hb) (ih h3)

theorem emitSpan_cases (noBg : Option String) (cm : List (String × String))
    (s i : Nat) (val : String) :
    emitSpan noBg cm s i val = [] ∨
    ∃ c, noBg ≠ some val ∧ lookupColor cm val = some c ∧
      emitSpan noBg cm s i val = [(s, i, val, c)] := by
  unfold emitSpan
  split_ifs with hno
  · exact Or.inl rfl
  · cases hcol : lookupColor cm val with
    | none => exact Or.inl rfl
    | some c => exact Or.inr ⟨c, hno, rfl, rfl⟩

theorem mem_emitSpan {noBg : Option String} {cm : List (String × String)}
    {s i : Nat} {val : String} {sp : BgSpan}
    (h : sp ∈ emitSpan noBg cm s i val) :
    noBg ≠ some val ∧ ∃ c, lookupColor cm val = some c ∧ sp = (s, i, val, c) := by
  unfold emitSpan at h
  split_ifs at h with hno
  · cases h
  · cases hcol : lookupColor cm val with
    | none => rw [hcol] at h; cases h
    | some c =>
      rw [hcol] at h
      exact ⟨hno, c, rfl, List.mem_singleton.mp h⟩

/-- Main invariant of the scan loop of `_draw_category_background`. `g` is
the ambient per-row value function; the loop is entered with a pending run
`[startIdx, i)` whose rows all carry `currentVal`, and `rest` holds the
rows from index `i` on. The produced spans are chained (sorted, disjoint),
each is a run of a single non-excluded value with differing values at both
boundaries, and every non-excluded row from `startIdx` on is covered. -/
theorem bgRuns_spec (noBg : Option String) (colorMap : List (String × String))
    (g : Nat → String) :
    ∀ (rest : List String) (currentVal : String) (startIdx i : Nat),
      startIdx < i →
      (∀ j, startIdx ≤ j → j < i → g j = currentVal) →
      (∀ k, k < rest.length → g (i + k) = rest.getD k "") →
      ChainedFrom startIdx (bgRuns noBg colorMap rest currentVal startIdx i) ∧
      (∀ s e v c, (s, e, v, c) ∈ bgRuns noBg colorMap rest currentVal startIdx i →
        startIdx ≤ s ∧ s < e ∧ e ≤ i + rest.length ∧
        (∀ j, s ≤ j → j < e → g j = v) ∧
        (s = startIdx ∨ (0 < s ∧ g (s - 1) ≠ v)) ∧
        (e = i + rest.length ∨ g e ≠ v) ∧
        noBg ≠ some v ∧ lookupColor colorMap v = some c) ∧
      (∀ j, startIdx ≤ j → j < i + rest.length →
        noBg ≠ some (g j) → (lookupColor colorMap (g j)).isSome = true →
        ∃ s e v c, (s, e, v, c) ∈ bgRuns noBg colorMap rest currentVal startIdx i ∧
          s ≤ j ∧ j < e) := by
  intro rest
  induction rest with
  | nil =>
    intro currentVal startIdx i hlt hrun hrest
    simp only [bgRuns, List.length_nil, Nat.add_zero]
    rcases emitSpan_cases noBg colorMap startIdx i currentVal with hE | ⟨c0, hno, hcol, hE⟩
    · rw [hE]
      refine ⟨trivial, ?_, ?_⟩
      · intro s e v c h; cases h
      · intro j hj1 hj2 hj3 hj4
        rw [hrun j hj1 hj2] at hj3 hj4
        unfold emitSpan at hE
        split_ifs at hE with hno
        · exact absurd hno hj3
        · cases hcol : lookupColor colorMap currentVal with
          | none => rw [hcol] at hj4; simp at hj4
          | some c => rw [hcol] at hE; cases hE
    · rw [hE]
      refine ⟨⟨le_refl _, hlt, trivial⟩, ?_, ?_⟩
      · intro s e v c h
        have heq := List.mem_singleton.mp h
        simp only [Prod.mk.injEq] at heq
        obtain ⟨rfl, rfl, rfl, rfl⟩ := heq
        exact ⟨le_refl _, hlt, le_refl _, fun j hj1 hj2 => hrun j hj1 hj2,
          Or.inl rfl, Or.inl rfl, hno, hcol⟩
      · intro j hj1 hj2 _ _
        exact ⟨startIdx, i, currentVal, c0, List.mem_singleton.mpr rfl, hj1, hj2⟩
  | cons v rest' ih =>
    intro currentVal startIdx i hlt hrun hrest
    have hgi : g i = v := by
      have h0 := hrest 0 (by simp)
      simpa using h0
    have hlen : i + (v :: rest').length = i + 1 + rest'.length := by
      simp only [List.length_cons]
      omega
    have hrest' : ∀ k, k < rest'.length → g (i + 1 + k) = rest'.getD k "" := by
      intro k hk
      have h1 := hrest (k + 1) (by simp only [List.length_cons]; omega)
      rw [show i + (k + 1) = i + 1 + k by omega] at h1
      simpa using h1
    by_cases hv : v ≠ currentVal
    · have hrun' : ∀ j, i ≤ j → j < i + 1 → g j = v := by
        intro j hj1 hj2
        rw [show j = i by omega, hgi]
      obtain ⟨IHch, IHmem, IHcov⟩ := ih v i (i + 1) (by omega) hrun' hrest'
      have hunfold : bgRuns noBg colorMap (v :: rest') currentVal startIdx i =
          emitSpan noBg colorMap startIdx i currentVal ++
            bgRuns noBg colorMap rest' v i (i + 1) := by
        simp only [bgRuns]
        rw [if_pos hv]
      rw [hunfold, hlen]
      refine ⟨?_, ?_, ?_⟩
      · rcases emitSpan_cases noBg colorMap startIdx i currentVal with hE | ⟨c0, hno, hcol, hE⟩
        · rw [hE, List.nil_append]
          exact chainedFrom_mono IHch hlt.le
        · rw [hE, List.singleton_append]
          exact ⟨le_refl _, hlt, IHch⟩
      · intro s e vv cc h
        rcases List.mem_append.mp h with hE | hT
        · obtain ⟨hno, c0, hcol, heq⟩ := mem_emitSpan hE
          simp only [Prod.mk.injEq] at heq
          obtain ⟨rfl, rfl, rfl, rfl⟩ := heq
          refine ⟨le_refl _, hlt, by omega, fun j hj1 hj2 => hrun j hj1 hj2,
            Or.inl rfl, Or.inr ?_, hno, hcol⟩
          rw [hgi]
          exact hv
        · obtain ⟨h1, h2, h3, h4, h5, h6, h7, h8⟩ := IHmem s e vv cc hT
          refine ⟨by omega, h2, h3, h4, ?_, h6, h7, h8⟩
          rcases h5 with h5 | h5
          · have hvv : vv = v := by
              rw [← hgi]
              exact (h4 i (by omega) (by omega)).symm
            refine Or.inr ⟨by omega, ?_⟩
            intro hc
            rw [h5] at hc
            rw [hrun (i - 1) (by omega) (by omega)] at hc
            rw [hvv] at hc
            exact hv hc.symm
          · exact Or.inr h5
      · intro j hj1 hj2 hj3 hj4
        by_cases hji : j < i
        · have hgj := hrun j hj1 hji
          rw [hgj] at hj3 hj4
          obtain ⟨c0, hcol⟩ := Option.isSome_iff_exists.mp hj4
          have hE : emitSpan noBg colorMap startIdx i currentVal =
              [(startIdx, i, currentVal, c0)] := by
            simp [emitSpan, hj3, hcol]
          refine ⟨startIdx, i, currentVal, c0, ?_, hj1, hji⟩
          apply List.mem_append_left
          rw [hE]
          exact List.mem_singleton.mpr rfl
        · push_neg at hji
          obtain ⟨s, e, vv, cc, hmem, hs, he⟩ := IHcov j hji (by omega) hj3 hj4
          exact ⟨s, e, vv, cc, List.mem_append_right _ hmem, hs, he⟩
    · rw [not_ne_iff] at hv
      have hrun'' : ∀ j, startIdx ≤ j → j < i + 1 → g j = currentVal := by
        intro j hj1 hj2
        rcases Nat.lt_or_ge j i with hj | hj
        · exact hrun j hj1 hj
        · rw [show j = i by omega, hgi, hv]
      obtain ⟨IHch, IHmem, IHcov⟩ := ih currentVal startIdx (i + 1) (by omega) hrun'' hrest'
      have hunfold : bgRuns noBg colorMap (v :: rest') currentVal startIdx i =
          bgRuns noBg colorMap rest' currentVal startIdx (i + 1) := by
        simp only [bgRuns]
        rw [if_neg (by simp [hv])]
      rw [hunfold, hlen]
      exact ⟨IHch, IHmem, IHcov⟩

/-- C3: for every segment value sequence, optional sentinel, and color map,
`_draw_category_background` emits exactly the maximal runs of equal
stringified values as half-open spans `[runStart, i)` — each span is
constant with differing neighbours at both boundaries — omitting precisely
the runs whose value equals the sentinel or is absent from the color map;
the spans are pairwise disjoint and sorted by start index, every row whose
value is neither the sentinel nor uncolored lies in a span carrying that
row's value (so re-expanding the spans reconstructs the original sequence
minus the excluded rows); an empty segment yields no spans. -/
theorem background_span_encoder_spec (catVals : List String)
    (noBg : Option String) (colorMap : List (String × String)) :
    ChainedFrom 0 (drawCategoryBackground catVals noBg colorMap) ∧
    (drawCategoryBackground catVals noBg colorMap).Pairwise
      (fun a b => a.2.1 ≤ b.1) ∧
    (∀ s e v c, (s, e, v, c) ∈ drawCategoryBackground catVals noBg colorMap →
      s < e ∧ e ≤ catVals.length ∧
      (∀ j, s ≤ j → j < e → catVals.getD j "" = v) ∧
      (s = 0 ∨ catVals.getD (s - 1) "" ≠ v) ∧
      (e = catVals.length ∨ catVals.getD e "" ≠ v) ∧
      noBg ≠ some v ∧ lookupColor colorMap v = some c) ∧
    (∀ j, j < catVals.length →
      noBg ≠ some (catVals.getD j "") →
      (lookupColor colorMap (catVals.getD j "")).isSome = true →
      ∃ s e v c, (s, e, v, c) ∈ drawCategoryBackground catVals noBg colorMap ∧
        s ≤ j ∧ j < e ∧ v = catVals.getD j "") ∧
    (catVals = [] → drawCategoryBackground catVals noBg colorMap = []) := by
  cases catVals with
  | nil =>
    refine ⟨trivial, List.Pairwise.nil, ?_, ?_, fun _ => rfl⟩
    · intro s e v c h; cases h
    · intro j hj; simp at hj
  | cons v0 rest =>
    obtain ⟨Hch, Hmem, Hcov⟩ := bgRuns_spec noBg colorMap
      (fun j => (v0 :: rest).getD j "") rest v0 0 1 one_pos
      (by intro j _ hj; rw [show j = 0 by omega]; rfl)
      (by intro k hk; show (v0 :: rest).getD (1 + k) "" = rest.getD k ""
          rw [show 1 + k = k + 1 by omega]
          rfl)
    have hdef : drawCategoryBackground (v0 :: rest) noBg colorMap =
        bgRuns noBg colorMap rest v0 0 1 := rfl
    have hlen : 1 + rest.length = (v0 :: rest).length := by
      simp only [List.length_cons]
      omega
    rw [hdef]
    refine ⟨Hch, chainedFrom_pairwise Hch, ?_, ?_, by intro h; cases h⟩
    · intro s e v c h
      obtain ⟨_, h2, h3, h4, h5, h6, h7, h8⟩ := Hmem s e v c h
      refine ⟨h2, ?_, fun j hj1 hj2 => h4 j hj1 hj2, ?_, ?_, h7, h8⟩
      · rw [← hlen]; exact h3
      · rcases h5 with h5 | h5
        · exact Or.inl h5
        · exact Or.inr h5.2
      · rw [← hlen]; exact h6
    · intro j hj hno hcol
      have hj' : j < 1 + rest.length := by rw [hlen]; exact hj
      obtain ⟨s, e, v, c, hmem, hs, he⟩ := Hcov j (Nat.zero_le j) hj' hno hcol
      obtain ⟨_, _, _, h4, _, _, _, _⟩ := Hmem s e v c hmem
      exact ⟨s, e, v, c, hmem, hs, he, (h4 j hs he).symm⟩

/-! ## Application state (`MainWindow`): `apply_edit_to_selection`
(lines 830-876) and `load_csv_file` (lines 541-594) -/

/-- The `MainWindow` state relevant to loading and editing: the owned
table, current path, dirty flag, segmentation counters, the per-column
domain cache `col_unique_cache`, the matplotlib axes limits, and the
active selection. -/
structure AppState where
  df : Option (List (String × List String))
  currentCsvPath : Option String
  hasUnsavedChanges : Bool
  totalChunks : Nat
  currentChunk : Nat
  colUniqueCache : List (String × Option (List String))
  xlim : ℚ × ℚ
  ylim : ℚ × ℚ
  selectedRange : Option (Nat × Nat)

/-- `self.df.columns`. -/
def dfColumns (df : List (String × List String)) : List String :=
  df.map Prod.fst

/-- `self.col_unique_cache.get(k)`: the cache entry for column `k`
(`none` when the key is absent; `some v` when present, where `v` itself is
the stored classification). -/
def lookupCacheVal (cache : List (String × Option (List String)))
    (k : String) : Option (Option (List String)) :=
  (cache.find? fun p => p.1 = k).map Prod.snd

/-- Python `dict` assignment `cache[k] = v`: replace the value of an
existing key in place, otherwise append the new binding. -/
def updateCache (cache : List (String × Option (List String)))
    (k : String) (v : Option (List String)) :
    List (String × Option (List String)) :=
  if (cache.find? fun p => p.1 = k).isSome then
    cache.map fun p => if p.1 = k then (k, v) else p
  else cache ++ [(k, v)]

inductive EditError where
  | NoColumnSelected
  | EmptyValue
deriving DecidableEq

inductive LoadError where
  | loadError
deriving DecidableEq

/-- Python `str.strip()`: drop leading and trailing whitespace
(`new_value = self.edit_value_combo.currentText().strip()`); Python's
`if not new_value` then tests for the empty string. -/
def pyStrip (s : String) : String :=
  ⟨((s.data.dropWhile Char.isWhitespace).reverse.dropWhile
      Char.isWhitespace).reverse⟩

/-- `apply_edit_to_selection`. `catCol` is the category-column combo state
(`none` models "— none —"), `editValue` the text of the assign-value combo.
`sampler` supplies the external pandas sample used by the domain
recomputation, and `renderX`/`renderY` stand for the axes limits produced
by the `redraw_plot` re-render, which the source overwrites by the
captured limits right afterwards. Failures (message boxes) are reified in
the second component; the first component is the resulting state. -/
def applyEditToSelection (st : AppState) (catCol : Option String)
    (editValue : String) (sampler : List String → List String)
    (renderX renderY : AppState → ℚ × ℚ) : AppState × Option EditError :=
  match st.df, st.selectedRange with
  | none, _ => (st, none)
  | some _, none => (st, none)
  | some df, some r =>
    match catCol with
    | none => (st, some EditError.NoColumnSelected)
    | some c =>
      if c ∉ dfColumns df then (st, some EditError.NoColumnSelected)
      else
        let newValue := pyStrip editValue
        if newValue = "" then (st, some EditError.EmptyValue)
        else
          let df' := applyEditDf df c r.1 r.2 newValue
          let newCol := (lookupColumn df' c).getD []
          let uniqs := calcUniqueValuesUpTo30 newCol (sampler newCol)
          let st1 : AppState := { st with
            df := some df',
            hasUnsavedChanges := true,
            colUniqueCache := updateCache st.colUniqueCache c uniqs }
          let xcap := st1.xlim
          let ycap := st1.ylim
          let st2 : AppState := { st1 with xlim := renderX st1, ylim := renderY st1 }
          let st3 : AppState := { st2 with xlim := xcap, ylim := ycap }
          ({ st3 with selectedRange := none }, none)

/-- `len(self.df)`: the row count of the table (row count of its first
column; 0 for an empty table). -/
def dfNumRows (df : List (String × List String)) : Nat :=
  ((df.head?).map fun p => p.2.length).getD 0

/-- `load_csv_file(path)`. The external `pd.read_csv` call is reified as
`parseResult` (`none`: the parse raised). On success the dataset, path,
dirty flag, domain caches and segmentation are recomputed; on failure the
method returns after the message box without touching any state. -/
def loadCsvFile (st : AppState) (path : String)
    (parseResult : Option (List (String × List String)))
    (sampler : List String → List String) : AppState × Option LoadError :=
  match parseResult with
  | none => (st, some LoadError.loadError)
  | some df =>
    ({ st with
        df := some df,
        currentCsvPath := some path,
        hasUnsavedChanges := false,
        colUniqueCache :=
          df.map fun p => (p.1, calcUniqueValuesUpTo30 p.2 (sampler p.2)),
        totalChunks := totalChunksOf (dfNumRows df),
        currentChunk := 0 }, none)

theorem lookupCacheVal_updateCache_self
    (cache : List (String × Option (List String))) (k : String)
    (v : Option (List String)) :
    lookupCacheVal (updateCache cache k v) k = some v := by
  unfold updateCache
  split_ifs with hfind
  · induction cache with
    | nil => simp at hfind
    | cons p t ih =>
      by_cases hp : p.1 = k
      · simp [lookupCacheVal, List.find?, hp]
      · rw [List.find?_cons_of_neg _ (by simpa using hp)] at hfind
        simp only [List.map_cons, if_neg hp]
        simp only [lookupCacheVal] at ih ⊢
        rw [List.find?_cons_of_neg _ (by simpa using hp)]
        exact ih hfind
  · induction cache with
    | nil => simp [lookupCacheVal, List.find?]
    | cons p t ih =>
      have hp : ¬ p.1 = k := by
        intro hp
        apply hfind
        rw [List.find?_cons_of_pos _ (by simpa using hp)]
        rfl
      rw [List.find?_cons_of_neg _ (by simpa using hp)] at hfind
      simp only [List.cons_append]
      simp only [lookupCacheVal] at ih ⊢
      rw [List.find?_cons_of_neg _ (by simpa using hp)]
      exact ih hfind

theorem lookupCacheVal_updateCache_other
    (cache : List (String × Option (List String))) (k k' : String)
    (v : Option (List String)) (hkk : k' ≠ k) :
    lookupCacheVal (updateCache cache k v) k' = lookupCacheVal cache k' := by
  unfold updateCache
  split_ifs with hfind
  · clear hfind
    induction cache with
    | nil => rfl
    | cons p t ih =>
      by_cases hp' : p.1 = k'
      · have hp : ¬ p.1 = k := by rw [hp']; exact hkk
        simp only [List.map_cons, if_neg hp]
        simp only [lookupCacheVal]
        rw [List.find?_cons_of_pos _ (by simpa using hp'),
          List.find?_cons_of_pos _ (by simpa using hp')]
      · simp only [List.map_cons]
        simp only [lookupCacheVal] at ih ⊢
        by_cases hp : p.1 = k
        · rw [if_pos hp]
          rw [List.find?_cons_of_neg _ (by simpa using fun h => hkk h.symm),
            List.find?_cons_of_neg _ (by simpa using hp')]
          exact ih
        · rw [if_neg hp]
          rw [List.find?_cons_of_neg _ (by simpa using hp'),
            List.find?_cons_of_neg _ (by simpa using hp')]
          exact ih
  · clear hfind
    induction cache with
    | nil =>
      simp only [List.nil_append, lookupCacheVal]
      rw [List.find?_cons_of_neg _ (by simpa using fun h => hkk h.symm)]
    | cons p t ih =>
      simp only [List.cons_append]
      simp only [lookupCacheVal] at ih ⊢
      by_cases hp' : p.1 = k'
      · rw [List.find?_cons_of_pos _ (by simpa using hp'),
          List.find?_cons_of_pos _ (by simpa using hp')]
      · rw [List.find?_cons_of_neg _ (by simpa using hp'),
          List.find?_cons_of_neg _ (by simpa using hp')]
        exact ih

/-! ## Theorems for claims C7, C8, C9 -/

/-- C9: for every load attempt whose source cannot be parsed
(`pd.read_csv` raises), loading fails with a `LoadError` and the entire
prior state — dataset, path, domain caches, and segmentation — is retained
unchanged. -/
theorem load_error_preserves_state (st : AppState) (path : String)
    (sampler : List String → List String) :
    loadCsvFile st path none sampler = (st, some LoadError.loadError) ∧
    (loadCsvFile st path none sampler).1.df = st.df ∧
    (loadCsvFile st path none sampler).1.currentCsvPath = st.currentCsvPath ∧
    (loadCsvFile st path none sampler).1.colUniqueCache = st.colUniqueCache ∧
    (loadCsvFile st path none sampler).1.totalChunks = st.totalChunks ∧
    (loadCsvFile st path none sampler).1.currentChunk = st.currentChunk :=
  ⟨rfl, rfl, rfl, rfl, rfl, rfl⟩

/-- C8: for every edit attempt (a selection is present), if no categorical
column is active (combo on "— none —" or naming a column absent from the
table) the edit fails with `NoColumnSelected`; if a column is active but
the stripped new value is blank it fails with `EmptyValue`; in both cases
the returned state is exactly the prior state — dataset, cached domains
and dirty flag untouched (no partial write). -/
theorem edit_validation_rejects (st : AppState) (catCol : Option String)
    (editValue : String) (sampler : List String → List String)
    (renderX renderY : AppState → ℚ × ℚ)
    (df : List (String × List String)) (r : Nat × Nat)
    (hdf : st.df = some df) (hsel : st.selectedRange = some r) :
    (catCol = none →
      applyEditToSelection st catCol editValue sampler renderX renderY =
        (st, some EditError.NoColumnSelected)) ∧
    (∀ c, catCol = some c → c ∉ dfColumns df →
      applyEditToSelection st catCol editValue sampler renderX renderY =
        (st, some EditError.NoColumnSelected)) ∧
    (∀ c, catCol = some c → c ∈ dfColumns df → pyStrip editValue = "" →
      applyEditToSelection st catCol editValue sampler renderX renderY =
        (st, some EditError.EmptyValue)) := by
  refine ⟨?_, ?_, ?_⟩
  · rintro rfl
    simp only [applyEditToSelection, hdf, hsel]
  · intro c hc hmem
    subst hc
    simp only [applyEditToSelection, hdf, hsel]
    rw [if_pos hmem]
  · intro c hc hmem hblank
    subst hc
    simp only [applyEditToSelection, hdf, hsel]
    rw [if_neg (not_not_intro hmem)]
    simp [hblank]

/-- A loaded 2-row table with an active selection, used to witness the
edit-validation rejections. -/
def editRejectState : AppState :=
  ⟨some [("cat", ["a", "b"])], some "f.csv", false, 1, 0,
    [("cat", some ["a", "b"])], (0, 1), (0, 1), some (0, 1)⟩

/-- Witness for `edit_validation_rejects`: the inactive-column and
blank-value rejections on `editRejectState`. -/
theorem edit_validation_rejects_witness :
    (editRejectState.df = some [("cat", ["a", "b"])] ∧
      editRejectState.selectedRange = some (0, 1)) ∧
    ((none = (none : Option String) →
      applyEditToSelection editRejectState none " " (fun l => l)
          (fun _ => (0, 1)) (fun _ => (0, 1)) =
        (editRejectState, some EditError.NoColumnSelected)) ∧
    (∀ c, (none : Option String) = some c →
      c ∉ dfColumns [("cat", ["a", "b"])] →
      applyEditToSelection editRejectState none " " (fun l => l)
          (fun _ => (0, 1)) (fun _ => (0, 1)) =
        (editRejectState, some EditError.NoColumnSelected)) ∧
    (∀ c, (none : Option String) = some c →
      c ∈ dfColumns [("cat", ["a", "b"])] → pyStrip " " = "" →
      applyEditToSelection editRejectState none " " (fun l => l)
          (fun _ => (0, 1)) (fun _ => (0, 1)) =
        (editRejectState, some EditError.EmptyValue))) :=
  ⟨⟨rfl, rfl⟩,
    edit_validation_rejects editRejectState none " " (fun l => l)
      (fun _ => (0, 1)) (fun _ => (0, 1)) [("cat", ["a", "b"])] (0, 1) rfl rfl⟩

/-- C7: after every successful edit (active column, non-blank value,
selection present), the edit succeeds, only the edited column's cached
domain is recomputed — its cache entry becomes the analyzer's result on
the post-edit column — while every other column's cache entry is left
untouched, and the viewport x-limits and y-limits after the
edit-triggered re-render (arbitrary `renderX`/`renderY`, overwritten by
the capture/restore pair) are bit-identical to their values before it. -/
theorem edit_success_cache_and_viewport (st : AppState) (catCol : Option String)
    (editValue : String) (sampler : List String → List String)
    (renderX renderY : AppState → ℚ × ℚ)
    (df : List (String × List String)) (r : Nat × Nat) (c : String)
    (hdf : st.df = some df) (hsel : st.selectedRange = some r)
    (hc : catCol = some c) (hmem : c ∈ dfColumns df)
    (hval : pyStrip editValue ≠ "") :
    (applyEditToSelection st catCol editValue sampler renderX renderY).2 =
      none ∧
    (applyEditToSelection st catCol editValue sampler renderX renderY).1.xlim =
      st.xlim ∧
    (applyEditToSelection st catCol editValue sampler renderX renderY).1.ylim =
      st.ylim ∧
    lookupCacheVal
      (applyEditToSelection st catCol editValue sampler renderX renderY).1.colUniqueCache
      c =
      some (calcUniqueValuesUpTo30
        ((lookupColumn (applyEditDf df c r.1 r.2 (pyStrip editValue)) c).getD [])
        (sampler ((lookupColumn (applyEditDf df c r.1 r.2 (pyStrip editValue)) c).getD []))) ∧
    (∀ c', c' ≠ c →
      lookupCacheVal
        (applyEditToSelection st catCol editValue sampler renderX renderY).1.colUniqueCache
        c' =
      lookupCacheVal st.colUniqueCache c') ∧
    (applyEditToSelection st catCol editValue sampler renderX renderY).1.df =
      some (applyEditDf df c r.1 r.2 (pyStrip editValue)) ∧
    (applyEditToSelection st catCol editValue sampler renderX renderY).1.hasUnsavedChanges =
      true ∧
    (applyEditToSelection st catCol editValue sampler renderX renderY).1.selectedRange =
      none := by
  subst hc
  simp only [applyEditToSelection, hdf, hsel]
  rw [if_neg (not_not_intro hmem), if_neg hval]
  refine ⟨rfl, rfl, rfl, ?_, ?_, rfl, rfl, rfl⟩
  · exact lookupCacheVal_updateCache_self st.colUniqueCache c _
  · intro c' hc'
    exact lookupCacheVal_updateCache_other st.colUniqueCache c c' _ hc'

/-- A loaded 2-column table with an active selection, used to witness a
successful edit. -/
def editSuccessState : AppState :=
  ⟨some [("cat", ["a", "b"]), ("num", ["1", "2"])], some "g.csv", false, 1, 0,
    [("cat", some ["a", "b"]), ("num", some ["1", "2"])], (0, 2), (-1, 3),
    some (0, 1)⟩

/-- Witness for `edit_success_cache_and_viewport`: assigning `"z"` to rows
0-1 of column `"cat"` of `editSuccessState`. -/
theorem edit_success_cache_and_viewport_witness :
    (editSuccessState.df =
        some [("cat", ["a", "b"]), ("num", ["1", "2"])] ∧
      editSuccessState.selectedRange = some (0, 1) ∧
      some "cat" = some "cat" ∧
      "cat" ∈ dfColumns [("cat", ["a", "b"]), ("num", ["1", "2"])] ∧
      pyStrip "z" ≠ "") ∧
    ((applyEditToSelection editSuccessState (some "cat") "z" (fun l => l)
        (fun _ => (5, 6)) (fun _ => (7, 8))).2 = none ∧
    (applyEditToSelection editSuccessState (some "cat") "z" (fun l => l)
        (fun _ => (5, 6)) (fun _ => (7, 8))).1.xlim = editSuccessState.xlim ∧
    (applyEditToSelection editSuccessState (some "cat") "z" (fun l => l)
        (fun _ => (5, 6)) (fun _ => (7, 8))).1.ylim = editSuccessState.ylim ∧
    lookupCacheVal
      (applyEditToSelection editSuccessState (some "cat") "z" (fun l => l)
        (fun _ => (5, 6)) (fun _ => (7, 8))).1.colUniqueCache "cat" =
      some (calcUniqueValuesUpTo30
        ((lookupColumn
          (applyEditDf [("cat", ["a", "b"]), ("num", ["1", "2"])] "cat"
            (0, 1).1 (0, 1).2 (pyStrip "z")) "cat").getD [])
        ((fun l => l) ((lookupColumn
          (applyEditDf [("cat", ["a", "b"]), ("num", ["1", "2"])] "cat"
            (0, 1).1 (0, 1).2 (pyStrip "z")) "cat").getD []))) ∧
    (∀ c', c' ≠ "cat" →
      lookupCacheVal
        (applyEditToSelection editSuccessState (some "cat") "z" (fun l => l)
          (fun _ => (5, 6)) (fun _ => (7, 8))).1.colUniqueCache c' =
      lookupCacheVal editSuccessState.colUniqueCache c') ∧
    (applyEditToSelection editSuccessState (some "cat") "z" (fun l => l)
        (fun _ => (5, 6)) (fun _ => (7, 8))).1.df =
      some (applyEditDf [("cat", ["a", "b"]), ("num", ["1", "2"])] "cat"
        (0, 1).1 (0, 1).2 (pyStrip "z")) ∧
    (applyEditToSelection editSuccessState (some "cat") "z" (fun l => l)
        (fun _ => (5, 6)) (fun _ => (7, 8))).1.hasUnsavedChanges = true ∧
    (applyEditToSelection editSuccessState (some "cat") "z" (fun l => l)
        (fun _ => (5, 6)) (fun _ => (7, 8))).1.selectedRange = none) :=
  ⟨⟨rfl, rfl, rfl, by decide, by decide⟩,
    edit_success_cache_and_viewport editSuccessState (some "cat") "z"
      (fun l => l) (fun _ => (5, 6)) (fun _ => (7, 8))
      [("cat", ["a", "b"]), ("num", ["1", "2"])] (0, 1) "cat" rfl rfl rfl
      (by decide) (by decide)⟩
